import Mathlib

/-!
Verification development for the droid-patcher repository.

Part 1 embeds the byte-signature extractor of src/fetch_droid.ts
(function removeDroidHeader, later revision): a forward scan for the
first occurrence of a header marker, removal of everything up to and
including it, then a backward scan for the last occurrence of a tail
marker and truncation strictly before it.

Part 2 embeds the AST rewrite engine of the ast_patcher module
(function patchAst) over a syntax-tree data model, together with the
orchestration helpers readConfig, fetch_version_from_cli and
downloadFile.
-/

namespace DroidPatcher

/-- Exact byte-for-byte comparison of the pattern against the buffer at
offset i, as performed by the inner for-loop of removeDroidHeader. -/
def matchAt (buf pat : List Nat) (i : Nat) : Bool :=
  decide ((buf.drop i).take pat.length = pat)

/-- Forward scan of removeDroidHeader: starting at index i with the given
number of remaining loop iterations, return the first index at which the
pattern matches. -/
def scanFirst (buf pat : List Nat) : Nat → Nat → Option Nat
  | 0, _ => none
  | fuel + 1, i => if matchAt buf pat i then some i else scanFirst buf pat fuel (i + 1)

/-- The header search loop: for i from 0 while i <= buf.length - pat.length,
stop at the first match. -/
def findFirstIndex (buf pat : List Nat) : Option Nat :=
  scanFirst buf pat (buf.length + 1 - pat.length) 0

/-- Backward scan of removeDroidHeader (later revision): from index i
downward to 0, return the first (hence overall last) index at which the
pattern matches. -/
def scanLast (buf pat : List Nat) : Nat → Option Nat
  | 0 => if matchAt buf pat 0 then some 0 else none
  | i + 1 => if matchAt buf pat (i + 1) then some (i + 1) else scanLast buf pat i

/-- The tail search loop: for i from buf.length - pat.length downward while
i >= 0, stop at the first match found (the last occurrence overall). -/
def findLastIndex (buf pat : List Nat) : Option Nat :=
  if pat.length ≤ buf.length then scanLast buf pat (buf.length - pat.length) else none

/-- The pure core of removeDroidHeader (later revision): find the first
header occurrence; when absent return the buffer unchanged; otherwise drop
through the end of the header and truncate at the last tail occurrence of
the remainder when present. -/
def extract (buf header tail : List Nat) : List Nat :=
  match findFirstIndex buf header with
  | none => buf
  | some i =>
    match findLastIndex (buf.drop (i + header.length)) tail with
    | none => buf.drop (i + header.length)
    | some j => (buf.drop (i + header.length)).take j

/-- The header marker of removeDroidHeader:
B:/~BUN/root/droid.exe NUL // at-bun LF (31 bytes). -/
def signaturePattern : List Nat :=
  [0x42, 0x3A, 0x2F, 0x7E, 0x42, 0x55, 0x4E, 0x2F,
   0x72, 0x6F, 0x6F, 0x74, 0x2F, 0x64, 0x72, 0x6F,
   0x69, 0x64, 0x2E, 0x65, 0x78, 0x65, 0x00, 0x2F,
   0x2F, 0x20, 0x40, 0x62, 0x75, 0x6E, 0x0A]

/-- The tail marker of removeDroidHeader (12 bytes). -/
def tailSignaturePattern : List Nat :=
  [0x2F, 0x2F, 0x23, 0x20, 0x64, 0x65, 0x62, 0x75,
   0x67, 0x49, 0x64, 0x3D]

/-- removeDroidHeader applied to in-memory bytes with the fixed markers. -/
def removeDroidHeaderExtract (buf : List Nat) : List Nat :=
  extract buf signaturePattern tailSignaturePattern

/-- The pattern occurs in the buffer at offset i. -/
def OccursAt (buf pat : List Nat) (i : Nat) : Prop :=
  i + pat.length ≤ buf.length ∧ (buf.drop i).take pat.length = pat

instance (buf pat : List Nat) (i : Nat) : Decidable (OccursAt buf pat i) :=
  inferInstanceAs (Decidable (i + pat.length ≤ buf.length ∧ (buf.drop i).take pat.length = pat))

/-- The pattern occurs somewhere in the buffer. -/
def Occurs (buf pat : List Nat) : Prop :=
  ∃ i, OccursAt buf pat i

theorem matchAt_true_iff (buf pat : List Nat) (i : Nat) (hpat : pat ≠ []) :
    matchAt buf pat i = true ↔ OccursAt buf pat i := by
  unfold matchAt OccursAt
  rw [decide_eq_true_iff]
  constructor
  · intro h
    refine ⟨?_, h⟩
    have hlen := congrArg List.length h
    simp only [List.length_take, List.length_drop] at hlen
    have hpos : 0 < pat.length := List.length_pos.mpr hpat
    omega
  · intro h
    exact h.2

theorem scanFirst_eq_some_iff (buf pat : List Nat) (fuel : Nat) :
    ∀ (i r : Nat), scanFirst buf pat fuel i = some r ↔
      (i ≤ r ∧ r < i + fuel ∧ matchAt buf pat r = true ∧
        ∀ k, i ≤ k → k < r → matchAt buf pat k = false) := by
  induction fuel with
  | zero =>
    intro i r
    simp only [scanFirst]
    constructor
    · intro h; cases h
    · intro h; omega
  | succ fuel ih =>
    intro i r
    simp only [scanFirst]
    by_cases h : matchAt buf pat i = true
    · rw [if_pos h]
      constructor
      · intro he
        cases he
        exact ⟨Nat.le_refl i, by omega, h, fun k h1 h2 => by omega⟩
      · intro ⟨h1, h2, h3, h4⟩
        have : r = i := by
          by_contra hne
          have hlt : i < r := Nat.lt_of_le_of_ne h1 (Ne.symm hne)
          have := h4 i (Nat.le_refl i) hlt
          rw [h] at this
          cases this
        rw [this]
    · rw [if_neg h]
      rw [ih (i + 1) r]
      constructor
      · intro ⟨h1, h2, h3, h4⟩
        refine ⟨by omega, by omega, h3, ?_⟩
        intro k hk1 hk2
        by_cases hki : k = i
        · rw [hki]; exact Bool.eq_false_iff.mpr h
        · exact h4 k (by omega) hk2
      · intro ⟨h1, h2, h3, h4⟩
        have hir : i < r := by
          by_cases hri : r = i
          · rw [hri] at h3; exact absurd h3 h
          · omega
        exact ⟨by omega, by omega, h3, fun k hk1 hk2 => h4 k (by omega) hk2⟩

theorem scanFirst_eq_none_iff (buf pat : List Nat) (fuel : Nat) :
    ∀ (i : Nat), scanFirst buf pat fuel i = none ↔
      (∀ k, i ≤ k → k < i + fuel → matchAt buf pat k = false) := by
  induction fuel with
  | zero =>
    intro i
    simp only [scanFirst]
    constructor
    · intro _ k h1 h2; omega
    · intro _; trivial
  | succ fuel ih =>
    intro i
    simp only [scanFirst]
    by_cases h : matchAt buf pat i = true
    · rw [if_pos h]
      constructor
      · intro he; cases he
      · intro hall
        have := hall i (Nat.le_refl i) (by omega)
        rw [h] at this
        cases this
    · rw [if_neg h]
      rw [ih (i + 1)]
      constructor
      · intro hall k h1 h2
        by_cases hki : k = i
        · rw [hki]; exact Bool.eq_false_iff.mpr h
        · exact hall k (by omega) (by omega)
      · intro hall k h1 h2
        exact hall k (by omega) (by omega)

theorem scanLast_eq_some_iff (buf pat : List Nat) :
    ∀ (i r : Nat), scanLast buf pat i = some r ↔
      (r ≤ i ∧ matchAt buf pat r = true ∧
        ∀ k, r < k → k ≤ i → matchAt buf pat k = false) := by
  intro i
  induction i with
  | zero =>
    intro r
    simp only [scanLast]
    by_cases h : matchAt buf pat 0 = true
    · rw [if_pos h]
      constructor
      · intro he
        cases he
        exact ⟨Nat.le_refl 0, h, fun k h1 h2 => by omega⟩
      · intro ⟨h1, h2, _⟩
        have : r = 0 := by omega
        rw [this]
    · rw [if_neg h]
      constructor
      · intro he; cases he
      · intro ⟨h1, h2, _⟩
        have : r = 0 := by omega
        rw [this] at h2
        exact absurd h2 h
  | succ i ih =>
    intro r
    simp only [scanLast]
    by_cases h : matchAt buf pat (i + 1) = true
    · rw [if_pos h]
      constructor
      · intro he
        cases he
        exact ⟨Nat.le_refl _, h, fun k h1 h2 => by omega⟩
      · intro ⟨h1, h2, h3⟩
        have : r = i + 1 := by
          by_contra hne
          have hlt : r < i + 1 := by omega
          have := h3 (i + 1) hlt (Nat.le_refl _)
          rw [h] at this
          cases this
        rw [this]
    · rw [if_neg h]
      rw [ih r]
      constructor
      · intro ⟨h1, h2, h3⟩
        refine ⟨by omega, h2, ?_⟩
        intro k hk1 hk2
        by_cases hki : k = i + 1
        · rw [hki]; exact Bool.eq_false_iff.mpr h
        · exact h3 k hk1 (by omega)
      · intro ⟨h1, h2, h3⟩
        have hri : r ≤ i := by
          by_cases hr1 : r = i + 1
          · rw [hr1] at h2; exact absurd h2 h
          · omega
        exact ⟨hri, h2, fun k hk1 hk2 => h3 k hk1 (by omega)⟩

theorem scanLast_eq_none_iff (buf pat : List Nat) :
    ∀ (i : Nat), scanLast buf pat i = none ↔
      (∀ k, k ≤ i → matchAt buf pat k = false) := by
  intro i
  induction i with
  | zero =>
    simp only [scanLast]
    by_cases h : matchAt buf pat 0 = true
    · rw [if_pos h]
      constructor
      · intro he; cases he
      · intro hall
        have := hall 0 (Nat.le_refl 0)
        rw [h] at this
        cases this
    · rw [if_neg h]
      constructor
      · intro _ k hk
        have : k = 0 := by omega
        rw [this]
        exact Bool.eq_false_iff.mpr h
      · intro _; trivial
  | succ i ih =>
    simp only [scanLast]
    by_cases h : matchAt buf pat (i + 1) = true
    · rw [if_pos h]
      constructor
      · intro he; cases he
      · intro hall
        have := hall (i + 1) (Nat.le_refl _)
        rw [h] at this
        cases this
    · rw [if_neg h]
      rw [ih]
      constructor
      · intro hall k hk
        by_cases hki : k = i + 1
        · rw [hki]; exact Bool.eq_false_iff.mpr h
        · exact hall k (by omega)
      · intro hall k hk
        exact hall k (by omega)

theorem occursAt_bound (buf pat : List Nat) (i : Nat) (h : OccursAt buf pat i) :
    i + pat.length ≤ buf.length := h.1

theorem findFirstIndex_eq_none_iff (buf pat : List Nat) (hpat : pat ≠ []) :
    findFirstIndex buf pat = none ↔ ¬ Occurs buf pat := by
  unfold findFirstIndex
  rw [scanFirst_eq_none_iff]
  have hpos : 0 < pat.length := List.length_pos.mpr hpat
  constructor
  · intro hall ⟨i, hi⟩
    have hb := hi.1
    have := hall i (by omega) (by omega)
    rw [(matchAt_true_iff buf pat i hpat).mpr hi] at this
    cases this
  · intro hno k _ _
    by_contra hk
    have : matchAt buf pat k = true := by
      cases hmk : matchAt buf pat k
      · exact absurd hmk hk
      · rfl
    exact hno ⟨k, (matchAt_true_iff buf pat k hpat).mp this⟩

theorem findFirstIndex_eq_some_iff (buf pat : List Nat) (hpat : pat ≠ []) (i : Nat) :
    findFirstIndex buf pat = some i ↔
      (OccursAt buf pat i ∧ ∀ k, k < i → ¬ OccursAt buf pat k) := by
  unfold findFirstIndex
  rw [scanFirst_eq_some_iff]
  have hpos : 0 < pat.length := List.length_pos.mpr hpat
  constructor
  · intro ⟨_, _, h3, h4⟩
    refine ⟨(matchAt_true_iff buf pat i hpat).mp h3, ?_⟩
    intro k hk hocc
    have := h4 k (by omega) hk
    rw [(matchAt_true_iff buf pat k hpat).mpr hocc] at this
    cases this
  · intro ⟨h1, h2⟩
    have hb := h1.1
    refine ⟨by omega, by omega, (matchAt_true_iff buf pat i hpat).mpr h1, ?_⟩
    intro k _ hk
    by_contra hmk
    have hkt : matchAt buf pat k = true := by
      cases hc : matchAt buf pat k
      · exact absurd hc hmk
      · rfl
    exact h2 k hk ((matchAt_true_iff buf pat k hpat).mp hkt)

theorem findLastIndex_eq_none_iff (buf pat : List Nat) (hpat : pat ≠ []) :
    findLastIndex buf pat = none ↔ ¬ Occurs buf pat := by
  unfold findLastIndex
  have hpos : 0 < pat.length := List.length_pos.mpr hpat
  by_cases hle : pat.length ≤ buf.length
  · rw [if_pos hle, scanLast_eq_none_iff]
    constructor
    · intro hall ⟨i, hi⟩
      have hb := hi.1
      have := hall i (by omega)
      rw [(matchAt_true_iff buf pat i hpat).mpr hi] at this
      cases this
    · intro hno k _
      by_contra hk
      have : matchAt buf pat k = true := by
        cases hmk : matchAt buf pat k
        · exact absurd hmk hk
        · rfl
      exact hno ⟨k, (matchAt_true_iff buf pat k hpat).mp this⟩
  · rw [if_neg hle]
    constructor
    · intro _ ⟨i, hi⟩
      have := hi.1
      omega
    · intro _; rfl

theorem findLastIndex_eq_some_iff (buf pat : List Nat) (hpat : pat ≠ []) (j : Nat) :
    findLastIndex buf pat = some j ↔
      (OccursAt buf pat j ∧ ∀ k, OccursAt buf pat k → k ≤ j) := by
  unfold findLastIndex
  have hpos : 0 < pat.length := List.length_pos.mpr hpat
  by_cases hle : pat.length ≤ buf.length
  · rw [if_pos hle, scanLast_eq_some_iff]
    constructor
    · intro ⟨h1, h2, h3⟩
      refine ⟨(matchAt_true_iff buf pat j hpat).mp h2, ?_⟩
      intro k hk
      by_contra hjk
      have hb := hk.1
      have := h3 k (by omega) (by omega)
      rw [(matchAt_true_iff buf pat k hpat).mpr hk] at this
      cases this
    · intro ⟨h1, h2⟩
      have hb := h1.1
      refine ⟨by omega, (matchAt_true_iff buf pat j hpat).mpr h1, ?_⟩
      intro k hk1 hk2
      by_contra hmk
      have hkt : matchAt buf pat k = true := by
        cases hc : matchAt buf pat k
        · exact absurd hc hmk
        · rfl
      have := h2 k ((matchAt_true_iff buf pat k hpat).mp hkt)
      omega
  · rw [if_neg hle]
    constructor
    · intro h; cases h
    · intro ⟨h1, _⟩
      have := h1.1
      omega

theorem signaturePattern_ne_nil : signaturePattern ≠ [] := by
  intro h
  simp [signaturePattern] at h

theorem tailSignaturePattern_ne_nil : tailSignaturePattern ≠ [] := by
  intro h
  simp [tailSignaturePattern] at h

/-- Claim C5: for every buffer with no occurrence of the header marker, the
extractor passes the buffer through unchanged, whether or not the tail
marker occurs in it. -/
theorem extract_no_header_passthrough (buf : List Nat)
    (h : ¬ Occurs buf signaturePattern) :
    removeDroidHeaderExtract buf = buf := by
  unfold removeDroidHeaderExtract extract
  rw [(findFirstIndex_eq_none_iff buf signaturePattern signaturePattern_ne_nil).mpr h]

/-- Witness for C5 at a concrete buffer: the tail-marker bytes themselves,
which contain an occurrence of the tail marker but none of the header. -/
theorem extract_no_header_passthrough_witness :
    (¬ Occurs tailSignaturePattern signaturePattern) ∧
      removeDroidHeaderExtract tailSignaturePattern = tailSignaturePattern := by
  have h : ¬ Occurs tailSignaturePattern signaturePattern := by
    rintro ⟨i, h1, _⟩
    have e1 : signaturePattern.length = 31 := rfl
    have e2 : tailSignaturePattern.length = 12 := rfl
    rw [e1, e2] at h1
    omega
  exact ⟨h, extract_no_header_passthrough tailSignaturePattern h⟩

/-- Claim C6: when the header marker first occurs at offset i and the tail
marker does not occur in the remainder after header removal, the extractor
returns exactly the suffix that starts right after the header bytes. -/
theorem extract_header_no_tail_suffix (buf : List Nat) (i : Nat)
    (h1 : OccursAt buf signaturePattern i)
    (h2 : ∀ k, k < i → ¬ OccursAt buf signaturePattern k)
    (h3 : ¬ Occurs (buf.drop (i + signaturePattern.length)) tailSignaturePattern) :
    removeDroidHeaderExtract buf = buf.drop (i + signaturePattern.length) := by
  have hfirst : findFirstIndex buf signaturePattern = some i :=
    (findFirstIndex_eq_some_iff buf signaturePattern signaturePattern_ne_nil i).mpr ⟨h1, h2⟩
  have hlast : findLastIndex (buf.drop (i + signaturePattern.length)) tailSignaturePattern = none :=
    (findLastIndex_eq_none_iff _ tailSignaturePattern tailSignaturePattern_ne_nil).mpr h3
  simp only [removeDroidHeaderExtract, extract, hfirst, hlast]

/-- Witness for C6: the buffer consisting of the header marker alone, whose
remainder after header removal is empty and so holds no tail marker. -/
theorem extract_header_no_tail_suffix_witness :
    OccursAt signaturePattern signaturePattern 0 ∧
      (¬ Occurs (signaturePattern.drop (0 + signaturePattern.length)) tailSignaturePattern) ∧
      removeDroidHeaderExtract signaturePattern
        = signaturePattern.drop (0 + signaturePattern.length) := by
  have h1 : OccursAt signaturePattern signaturePattern 0 := by
    constructor
    · simp
    · simp
  have h3 : ¬ Occurs (signaturePattern.drop (0 + signaturePattern.length)) tailSignaturePattern := by
    rintro ⟨m, hl, _⟩
    have e1 : (signaturePattern.drop (0 + signaturePattern.length)).length = 0 := rfl
    have e2 : tailSignaturePattern.length = 12 := rfl
    rw [e1, e2] at hl
    omega
  exact ⟨h1, h3, extract_header_no_tail_suffix signaturePattern 0 h1
    (fun k hk => absurd hk (Nat.not_lt_zero k)) h3⟩

/-- Concrete buffer for the C1 witness: the header marker, then one payload
byte, then two occurrences of the tail marker separated by a payload byte. -/
def lastTailDemoBuf : List Nat :=
  signaturePattern ++ 65 :: (tailSignaturePattern ++ 66 :: tailSignaturePattern)

/-- Claim C1: when the header marker occurs (first at offset i) and the tail
marker occurs more than once in the remainder after header removal, the
extractor truncates at the last tail occurrence j, keeping the bytes
strictly before it, and the result differs from truncating at any earlier
occurrence k. -/
theorem extract_truncates_at_last_tail (buf : List Nat) (i j k : Nat)
    (h1 : OccursAt buf signaturePattern i)
    (h2 : ∀ m, m < i → ¬ OccursAt buf signaturePattern m)
    (h3 : OccursAt (buf.drop (i + signaturePattern.length)) tailSignaturePattern j)
    (h4 : ∀ m, OccursAt (buf.drop (i + signaturePattern.length)) tailSignaturePattern m → m ≤ j)
    (h5 : OccursAt (buf.drop (i + signaturePattern.length)) tailSignaturePattern k)
    (h6 : k < j) :
    removeDroidHeaderExtract buf = (buf.drop (i + signaturePattern.length)).take j ∧
      removeDroidHeaderExtract buf ≠ (buf.drop (i + signaturePattern.length)).take k := by
  have hmain : removeDroidHeaderExtract buf = (buf.drop (i + signaturePattern.length)).take j := by
    have hfirst : findFirstIndex buf signaturePattern = some i :=
      (findFirstIndex_eq_some_iff buf signaturePattern signaturePattern_ne_nil i).mpr ⟨h1, h2⟩
    have hlast : findLastIndex (buf.drop (i + signaturePattern.length)) tailSignaturePattern
        = some j :=
      (findLastIndex_eq_some_iff _ tailSignaturePattern tailSignaturePattern_ne_nil j).mpr ⟨h3, h4⟩
    simp only [removeDroidHeaderExtract, extract, hfirst, hlast]
  refine ⟨hmain, ?_⟩
  rw [hmain]
  intro heq
  have hj := h3.1
  have hk := h5.1
  have htpos : 0 < tailSignaturePattern.length := by decide
  have e1 : ((buf.drop (i + signaturePattern.length)).take j).length = j := by
    rw [List.length_take]
    exact Nat.min_eq_left (by omega)
  have e2 : ((buf.drop (i + signaturePattern.length)).take k).length = k := by
    rw [List.length_take]
    exact Nat.min_eq_left (by omega)
  rw [heq, e2] at e1
  omega

/-- Witness for C1: on the demo buffer the tail marker occurs at offsets 1
and 14 of the remainder; extraction truncates at 14, not at 1. -/
theorem extract_truncates_at_last_tail_witness :
    OccursAt lastTailDemoBuf signaturePattern 0 ∧
      OccursAt (lastTailDemoBuf.drop (0 + signaturePattern.length)) tailSignaturePattern 14 ∧
      OccursAt (lastTailDemoBuf.drop (0 + signaturePattern.length)) tailSignaturePattern 1 ∧
      removeDroidHeaderExtract lastTailDemoBuf
        = (lastTailDemoBuf.drop (0 + signaturePattern.length)).take 14 ∧
      removeDroidHeaderExtract lastTailDemoBuf
        ≠ (lastTailDemoBuf.drop (0 + signaturePattern.length)).take 1 := by
  have h1 : OccursAt lastTailDemoBuf signaturePattern 0 := by decide
  have h3 : OccursAt (lastTailDemoBuf.drop (0 + signaturePattern.length)) tailSignaturePattern 14 := by
    decide
  have h5 : OccursAt (lastTailDemoBuf.drop (0 + signaturePattern.length)) tailSignaturePattern 1 := by
    decide
  have h4 : ∀ m, OccursAt (lastTailDemoBuf.drop (0 + signaturePattern.length))
      tailSignaturePattern m → m ≤ 14 := by
    intro m hm
    have hl := hm.1
    have e1 : (lastTailDemoBuf.drop (0 + signaturePattern.length)).length = 26 := rfl
    have e2 : tailSignaturePattern.length = 12 := rfl
    rw [e1, e2] at hl
    omega
  have hc := extract_truncates_at_last_tail lastTailDemoBuf 0 14 1 h1
    (fun m hm => absurd hm (Nat.not_lt_zero m)) h3 h4 h5 (by omega)
  exact ⟨h1, h3, h5, hc.1, hc.2⟩

/-- Fallback version string hard-coded in fetch_version_from_cli. -/
def fallbackVersion : List Char := ['0', '.', '2', '7', '.', '4']

/-- Attempt to match the regular expression pattern VER="([^"]+)" at the
head of the character list: the five prefix characters, then one or more
characters other than a double quote, then a closing double quote; return
the captured group on success. -/
def matchVER (s : List Char) : Option (List Char) :=
  if s.take 5 = ['V', 'E', 'R', '=', '"'] then
    let afterQuote := s.drop 5
    let captured := afterQuote.takeWhile (fun c => c ≠ '"')
    match afterQuote.drop captured.length with
    | [] => none
    | _ :: _ => if captured.isEmpty then none else some captured
  else none

/-- Scan the script text left to right for the first position at which the
version pattern matches, as the JavaScript regex match does. -/
def scanVER : List Char → Option (List Char)
  | [] => none
  | c :: rest =>
    match matchVER (c :: rest) with
    | some v => some v
    | none => scanVER rest

/-- fetch_version_from_cli of src/fetch_droid.ts, with the network fetch
modelled as its result: on a successful fetch the script text, on a network
failure the thrown error. The body wraps everything in try/catch; the catch
arm logs and returns the fallback version, and the internal throw for a
missing version pattern is caught by the same catch. -/
def fetch_version_from_cli (networkFetch : Except String (List Char)) :
    Except String (List Char) :=
  match networkFetch with
  | .error _ => .ok fallbackVersion
  | .ok scriptContent =>
    match scanVER scriptContent with
    | some v => .ok v
    | none => .ok fallbackVersion

/-- The fields of the fetch response consulted by downloadFile. -/
structure FetchResponse where
  ok : Bool
  statusText : String
  body : List Nat

/-- downloadFile of src/fetch_droid.ts, with the fetch and the stream
pipeline modelled by their results: a thrown network error is logged and
rethrown by the catch arm, and a non-ok response status becomes a thrown
error as well. On success the response body is the downloaded content. -/
def downloadFile (response : Except String FetchResponse) : Except String (List Nat) :=
  match response with
  | .error e => .error e
  | .ok r => if r.ok then .ok r.body else .error ("Failed to download file: " ++ r.statusText)

/-- Claim C7 counterexample: a network failure while fetching the remote
version does not surface to the caller of fetch_version_from_cli; the catch
arm replaces it with the fallback version 0.27.4. -/
theorem fetch_version_network_error_fallback_cex :
    fetch_version_from_cli (.error "network failure") = .ok fallbackVersion := rfl

/-- Claim C7 as amended: network failures inside downloadFile propagate to
the caller (a thrown fetch error is rethrown, and a non-ok response status
becomes an error), but a network failure while fetching the remote version
is silently replaced by the fallback version string 0.27.4. -/
theorem network_failure_propagation_amended :
    (∀ e, downloadFile (.error e) = .error e) ∧
      (∀ r : FetchResponse, r.ok = false →
        downloadFile (.ok r) = .error ("Failed to download file: " ++ r.statusText)) ∧
      (∀ e, fetch_version_from_cli (.error e) = .ok fallbackVersion) := by
  refine ⟨fun e => rfl, ?_, fun e => rfl⟩
  intro r hr
  simp only [downloadFile, hr]
  rfl

/-- Witness for the amended C7 at concrete inputs: a thrown fetch error and
a 404 response. -/
theorem network_failure_propagation_amended_witness :
    downloadFile (.error "fetch failed") = .error "fetch failed" ∧
      (FetchResponse.mk false "Not Found" []).ok = false ∧
      downloadFile (.ok (FetchResponse.mk false "Not Found" []))
        = .error ("Failed to download file: " ++ "Not Found") ∧
      fetch_version_from_cli (.error "fetch failed") = .ok fallbackVersion := by
  refine ⟨network_failure_propagation_amended.1 "fetch failed", rfl, ?_,
    network_failure_propagation_amended.2.2 "fetch failed"⟩
  exact network_failure_propagation_amended.2.1 (FetchResponse.mk false "Not Found" []) rfl

/-- The version-record shape persisted by the orchestrator. -/
structure DroidConfig where
  packageName : String
  version : String
  bin_name : String

/-- The default record readConfig returns when the config file is missing
or unreadable or its contents fail to parse. -/
def defaultDroidConfig : DroidConfig :=
  DroidConfig.mk "droid-patched" "" "droid"

/-- readConfig of src/fetch_droid.ts. The filesystem access and JSON.parse
are external collaborators, modelled by their results: fileContents is none
when access or readFile throws (missing or unreadable file), and jsonParse
returns none when JSON.parse throws on the contents. Every failure lands in
the catch arm, which returns the default record. -/
def readConfig (fileContents : Option String)
    (jsonParse : String → Option DroidConfig) : DroidConfig :=
  match fileContents with
  | none => defaultDroidConfig
  | some contents =>
    match jsonParse contents with
    | none => defaultDroidConfig
    | some cfg => cfg

/-- Claim C8: a missing config file or unparseable contents never raises;
readConfig returns the default record with package name droid-patched,
empty version and binary name droid, so a run proceeds as a first run. -/
theorem readConfig_default_on_missing_or_unparseable
    (jsonParse : String → Option DroidConfig) (contents : String)
    (hbad : jsonParse contents = none) :
    readConfig none jsonParse = defaultDroidConfig ∧
      readConfig (some contents) jsonParse = defaultDroidConfig ∧
      defaultDroidConfig = DroidConfig.mk "droid-patched" "" "droid" := by
  refine ⟨rfl, ?_, rfl⟩
  simp only [readConfig, hbad]

/-- Witness for C8: a parser that rejects the concrete contents. -/
theorem readConfig_default_witness :
    (fun _ : String => (none : Option DroidConfig)) "not json" = none ∧
      readConfig none (fun _ => none) = defaultDroidConfig ∧
      readConfig (some "not json") (fun _ => none) = defaultDroidConfig := by
  have h := readConfig_default_on_missing_or_unparseable (fun _ => none) "not json" rfl
  exact ⟨rfl, h.1, h.2.1⟩

/-- Import specifier shapes of an ImportDeclaration as distinguished by
patchAst: a named specifier (imported name, local name), a default
specifier, and a namespace (star) specifier. -/
inductive ImportSpec where
  | named (imported : String) (localName : String)
  | defaultS (localName : String)
  | star (localName : String)

/-- One property of an object destructuring pattern: key, bound local name,
and the shorthand flag passed to the object-property constructor. -/
structure ObjPatProp where
  key : String
  localName : String
  shorthand : Bool

/-- Binding patterns appearing as variable declarator ids. -/
inductive Pat where
  | id (name : String)
  | objPat (props : List ObjPatProp)

mutual

/-- Expressions of the modelled JavaScript syntax tree. -/
inductive Expr where
  | ident (name : String)
  | strLit (value : String)
  | numLit (value : Nat)
  | call (callee : Expr) (args : List Expr)
  | member (objE : Expr) (propName : String)
  | awaitE (arg : Expr)
  | assign (lhs : Expr) (rhs : Expr)
  | binop (op : String) (lhs : Expr) (rhs : Expr)
  | unop (op : String) (arg : Expr)
  | fnExpr (params : List String) (body : List Stmt)
  | arrowFnExpr (params : List String) (body : List Stmt) (isAsync : Bool)
  | objLit (props : List ObjMember)

/-- Members of an object literal: object methods and plain properties. -/
inductive ObjMember where
  | method (key : String) (params : List String) (body : List Stmt)
  | prop (key : String) (value : Expr)

/-- One variable declarator: a binding pattern and an optional initializer. -/
inductive Declarator where
  | mk (idPat : Pat) (init : Option Expr)

/-- Members of a class body. -/
inductive ClassMember where
  | method (key : String) (params : List String) (body : List Stmt)

/-- Statements of the modelled JavaScript syntax tree. -/
inductive Stmt where
  | exprStmt (e : Expr)
  | varDecl (kind : String) (decls : List Declarator)
  | funcDecl (name : String) (params : List String) (body : List Stmt)
  | classDecl (name : String) (members : List ClassMember)
  | returnStmt (arg : Option Expr)
  | ifStmt (test : Expr) (thenBody : List Stmt) (elseBody : List Stmt)
  | importDecl (specs : List ImportSpec) (source : String)
  | emptyStmt

end

/-- The AstPatchConfig record of the ast_patcher module; the two map-shaped
fields are modelled as association lists. -/
structure AstPatchConfig where
  removeIdentifiers : List String
  renameIdentifiers : List (String × String)
  removeFunctionCalls : List String
  replaceFunctionBody : List (String × String)

/-- Identifier renaming applied at binding positions by the Identifier
visitor: the configured new name when one is present, otherwise the
identifier itself. -/
def renameIdent (cfg : AstPatchConfig) (n : String) : String :=
  match cfg.renameIdentifiers.lookup n with
  | some newName => newName
  | none => n

/-- Body-replacement lookup shared by the FunctionDeclaration,
VariableDeclarator, ObjectMethod and ClassMethod visitors. Every visitor
guards the replacement with the JavaScript truthiness test on the looked-up
value, so a configured empty string behaves as if absent. -/
def replaceLookup (cfg : AstPatchConfig) (n : String) : Option String :=
  match cfg.replaceFunctionBody.lookup n with
  | some rv => if rv = "" then none else some rv
  | none => none

/-- The require(source) call expression built by the import rewrites. -/
def requireCall (source : String) : Expr :=
  .call (.ident "require") [.strLit source]

/-- Recognizer matching t.isImportSpecifier. -/
def ImportSpec.isNamed : ImportSpec → Bool
  | .named _ _ => true
  | _ => false

/-- Recognizer matching t.isImportDefaultSpecifier. -/
def ImportSpec.isDefault : ImportSpec → Bool
  | .defaultS _ => true
  | _ => false

/-- The local binding name of a specifier. -/
def ImportSpec.localOf : ImportSpec → String
  | .named _ l => l
  | .defaultS l => l
  | .star l => l

/-- The object-pattern property built for a named import specifier:
key imported, value local, shorthand exactly when the two names agree. The
other arms are never reached because the callers filter for named
specifiers first. -/
def importProp (s : ImportSpec) : ObjPatProp :=
  match s with
  | .named imported localName => ObjPatProp.mk imported localName (imported == localName)
  | .defaultS localName => ObjPatProp.mk localName localName true
  | .star localName => ObjPatProp.mk localName localName true

/-- The ImportDeclaration visitor of patchAst: the replacement statement
for an import declaration, or none when no branch applies and the import is
left in place. tempName stands for the unique identifier generated by the
scope for the mixed default-plus-named case. The branches follow the
source order: side-effect import, single namespace import, all-named
import, single default import, then the mixed case driven by the first
default specifier found and the filtered named specifiers. -/
def transformImportDecl (specs : List ImportSpec) (source : String)
    (tempName : String) : Option Stmt :=
  match specs with
  | [] => some (.exprStmt (requireCall source))
  | [.star localName] =>
    some (.varDecl "var" [Declarator.mk (.id localName) (some (requireCall source))])
  | _ =>
    if specs.all ImportSpec.isNamed then
      some (.varDecl "var"
        [Declarator.mk (.objPat (specs.map importProp)) (some (requireCall source))])
    else
      match specs with
      | [.defaultS localName] =>
        some (.varDecl "var" [Declarator.mk (.id localName) (some (requireCall source))])
      | _ =>
        let defaultSpec := specs.find? ImportSpec.isDefault
        let namedSpecs := specs.filter ImportSpec.isNamed
        if defaultSpec.isSome || !namedSpecs.isEmpty then
          some (.varDecl "var"
            ([Declarator.mk (.id tempName) (some (requireCall source))]
              ++ (match defaultSpec with
                  | some s => [Declarator.mk (.id s.localOf) (some (.ident tempName))]
                  | none => [])
              ++ (if namedSpecs.isEmpty then []
                  else [Declarator.mk (.objPat (namedSpecs.map importProp))
                    (some (.ident tempName))])))
        else none

/-- Callee-name extraction of the CallExpression visitor: a bare identifier
callee, or the identifier property of a member-expression callee,
regardless of the receiver object. -/
def calleeNameOf : Expr → Option String
  | .ident n => some n
  | .member _ p => some p
  | _ => none

/-- Keep the original node when a child in a mandatory expression position
was removed; the shipped configurations never exercise this position, where
the source would produce a structurally invalid tree. -/
def keepOr (e : Expr) : Option Expr → Expr
  | some e2 => e2
  | none => e

/-- Keep the original import statement when the visitor produced no
replacement. -/
def keepOrStmt (s : Stmt) : Option Stmt → Stmt
  | some s2 => s2
  | none => s

/-- The declarator name consulted for removal and body replacement: only an
identifier id yields one, as in the source. -/
def declaredName : Declarator → Option String
  | .mk (.id n) _ => some n
  | .mk (.objPat _) _ => none

mutual

/-- One traversal of patchAst over an expression. The CallExpression
visitor may delete the node (none); every other node is rebuilt from its
traversed children. -/
def patchExpr (cfg : AstPatchConfig) : Expr → Option Expr
  | .ident n => some (.ident n)
  | .strLit v => some (.strLit v)
  | .numLit v => some (.numLit v)
  | .call callee args =>
    match calleeNameOf callee with
    | some n =>
      if cfg.removeFunctionCalls.contains n then none
      else some (.call (keepOr callee (patchExpr cfg callee)) (patchExprList cfg args))
    | none => some (.call (keepOr callee (patchExpr cfg callee)) (patchExprList cfg args))
  | .member objE p => some (.member (keepOr objE (patchExpr cfg objE)) p)
  | .awaitE a => some (.awaitE (keepOr a (patchExpr cfg a)))
  | .assign l r => some (.assign (keepOr l (patchExpr cfg l)) (keepOr r (patchExpr cfg r)))
  | .binop op l r => some (.binop op (keepOr l (patchExpr cfg l)) (keepOr r (patchExpr cfg r)))
  | .unop op a => some (.unop op (keepOr a (patchExpr cfg a)))
  | .fnExpr ps body => some (.fnExpr (ps.map (renameIdent cfg)) (patchStmts cfg body))
  | .arrowFnExpr ps body isAsync =>
    some (.arrowFnExpr (ps.map (renameIdent cfg)) (patchStmts cfg body) isAsync)
  | .objLit props => some (.objLit (patchObjMembers cfg props))

/-- Call-argument traversal: a removed call argument disappears from the
argument list. -/
def patchExprList (cfg : AstPatchConfig) : List Expr → List Expr
  | [] => []
  | e :: rest =>
    match patchExpr cfg e with
    | none => patchExprList cfg rest
    | some e2 => e2 :: patchExprList cfg rest

/-- The ObjectMethod visitor plus child traversal: a truthy configured
replacement for the method key replaces the whole body with a single
return of the configured string literal. -/
def patchObjMember (cfg : AstPatchConfig) : ObjMember → ObjMember
  | .method key ps body =>
    match replaceLookup cfg key with
    | some rv => .method key (ps.map (renameIdent cfg)) [.returnStmt (some (.strLit rv))]
    | none => .method key (ps.map (renameIdent cfg)) (patchStmts cfg body)
  | .prop key v => .prop key (keepOr v (patchExpr cfg v))

def patchObjMembers (cfg : AstPatchConfig) : List ObjMember → List ObjMember
  | [] => []
  | m :: rest => patchObjMember cfg m :: patchObjMembers cfg rest

/-- The ClassMethod visitor plus child traversal, identical in shape to the
ObjectMethod visitor. -/
def patchClassMember (cfg : AstPatchConfig) : ClassMember → ClassMember
  | .method key ps body =>
    match replaceLookup cfg key with
    | some rv => .method key (ps.map (renameIdent cfg)) [.returnStmt (some (.strLit rv))]
    | none => .method key (ps.map (renameIdent cfg)) (patchStmts cfg body)

def patchClassMembers (cfg : AstPatchConfig) : List ClassMember → List ClassMember
  | [] => []
  | m :: rest => patchClassMember cfg m :: patchClassMembers cfg rest

/-- Initializer traversal of the VariableDeclarator visitor: a truthy
configured replacement for the declared name replaces the body of a
function or arrow initializer; any other initializer is traversed, and an
initializer that is itself a removed call disappears, leaving a declarator
without initializer. -/
def patchDeclInit (cfg : AstPatchConfig) (name : String) : Option Expr → Option Expr
  | none => none
  | some e =>
    match replaceLookup cfg name, e with
    | some rv, .fnExpr ps _ =>
      some (.fnExpr (ps.map (renameIdent cfg)) [.returnStmt (some (.strLit rv))])
    | some rv, .arrowFnExpr ps _ isAsync =>
      some (.arrowFnExpr (ps.map (renameIdent cfg)) [.returnStmt (some (.strLit rv))] isAsync)
    | _, _ => patchExpr cfg e

def patchDeclarator (cfg : AstPatchConfig) : Declarator → Declarator
  | .mk (.id name) init => .mk (.id (renameIdent cfg name)) (patchDeclInit cfg name init)
  | .mk (.objPat props) init =>
    .mk (.objPat (props.map (fun p => ObjPatProp.mk p.key (renameIdent cfg p.localName) p.shorthand)))
      (match init with
       | none => none
       | some e => patchExpr cfg e)

/-- The VariableDeclarator removal logic: a declarator whose identifier is
configured for removal is dropped, and when it is the only declarator still
on the declaration at visit time the whole statement is removed (none).
keptCount counts earlier declarators that were kept. -/
def patchDecls (cfg : AstPatchConfig) (keptCount : Nat) :
    List Declarator → Option (List Declarator)
  | [] => some []
  | d :: rest =>
    match declaredName d with
    | some name =>
      if cfg.removeIdentifiers.contains name then
        if keptCount + 1 + rest.length == 1 then none
        else patchDecls cfg keptCount rest
      else
        match patchDecls cfg (keptCount + 1) rest with
        | none => none
        | some rest2 => some (patchDeclarator cfg d :: rest2)
    | none =>
      match patchDecls cfg (keptCount + 1) rest with
      | none => none
      | some rest2 => some (patchDeclarator cfg d :: rest2)

/-- One traversal of patchAst over a statement; none means the statement
was removed. Replacement statements produced for imports are emitted as
they are built; under the shipped configurations no rewrite rule matches
their contents. -/
def patchStmt (cfg : AstPatchConfig) : Stmt → Option Stmt
  | .exprStmt e =>
    match patchExpr cfg e with
    | none => none
    | some e2 => some (.exprStmt e2)
  | .varDecl kind decls =>
    match patchDecls cfg 0 decls with
    | none => none
    | some decls2 => some (.varDecl kind decls2)
  | .funcDecl name ps body =>
    if cfg.removeIdentifiers.contains name then none
    else
      match replaceLookup cfg name with
      | some rv =>
        some (.funcDecl (renameIdent cfg name) (ps.map (renameIdent cfg))
          [.returnStmt (some (.strLit rv))])
      | none =>
        some (.funcDecl (renameIdent cfg name) (ps.map (renameIdent cfg)) (patchStmts cfg body))
  | .classDecl name members =>
    some (.classDecl (renameIdent cfg name) (patchClassMembers cfg members))
  | .returnStmt arg =>
    match arg with
    | none => some (.returnStmt none)
    | some e => some (.returnStmt (patchExpr cfg e))
  | .ifStmt test thenB elseB =>
    some (.ifStmt (keepOr test (patchExpr cfg test))
      (patchStmts cfg thenB) (patchStmts cfg elseB))
  | .importDecl specs source =>
    some (keepOrStmt (.importDecl specs source) (transformImportDecl specs source "_temp"))
  | .emptyStmt => some .emptyStmt

def patchStmts (cfg : AstPatchConfig) : List Stmt → List Stmt
  | [] => []
  | s :: rest =>
    match patchStmt cfg s with
    | none => patchStmts cfg rest
    | some s2 => s2 :: patchStmts cfg rest

end

/-- The top-level await test of patchAst: an expression statement whose
expression is an await expression. A statement that merely contains an
await inside a nested function body does not satisfy this. -/
def isTopLevelAwaitStmt : Stmt → Bool
  | .exprStmt (.awaitE _) => true
  | _ => false

/-- The trailing self-invoking asynchronous arrow function built by
patchAst around the collected top-level await statements. -/
def asyncIIFE (stmts : List Stmt) : Stmt :=
  .exprStmt (.call (.arrowFnExpr [] stmts true) [])

/-- The post-traversal step of patchAst over the program body: map each
top-level await statement to null while collecting it in order, filter the
nulls out, and when any were collected append one async wrapper holding
them at the end of the body. -/
def relocateTopLevelAwait (body : List Stmt) : List Stmt :=
  let topLevelAwaitStatements := body.filter isTopLevelAwaitStmt
  let newBody :=
    (body.map (fun n => if isTopLevelAwaitStmt n then none else some n)).reduceOption
  if !topLevelAwaitStatements.isEmpty then newBody ++ [asyncIIFE topLevelAwaitStatements]
  else newBody

/-- The process.env.FACTORY_API_KEY member expression. -/
def factoryKeyExpr : Expr :=
  .member (.member (.ident "process") "env") "FACTORY_API_KEY"

/-- The authentication-check snippet textually prepended by patchAst before
parsing, as it parses: an immediately invoked function that requires fs,
path and os, computes the credential-file path, and sets the environment
key to an offline placeholder when neither the file nor the key exists. -/
def authCheckStmt : Stmt :=
  .exprStmt (.call (.fnExpr []
    [.varDecl "const"
      [Declarator.mk (.objPat [ObjPatProp.mk "existsSync" "e" false]) (some (requireCall "fs")),
       Declarator.mk (.objPat [ObjPatProp.mk "join" "j" false]) (some (requireCall "path")),
       Declarator.mk (.objPat [ObjPatProp.mk "homedir" "h" false]) (some (requireCall "os"))],
     .varDecl "const"
      [Declarator.mk (.id "a")
        (some (.call (.ident "j") [.call (.ident "h") [], .strLit ".factory", .strLit "auth.json"]))],
     .ifStmt (.binop "&&" (.unop "!" (.call (.ident "e") [.ident "a"])) (.unop "!" factoryKeyExpr))
       [.exprStmt (.assign factoryKeyExpr (.strLit "sk-offline"))] []]) [])

/-- patchAst of the ast_patcher module at the level of parsed programs: the
auth-check snippet is prepended, the configured visitors traverse the whole
program, and top-level await statements are relocated into a trailing async
wrapper. -/
def patchAst (cfg : AstPatchConfig) (program : List Stmt) : List Stmt :=
  relocateTopLevelAwait (patchStmts cfg (authCheckStmt :: program))

/-- defaultDroidPatchConfig of the ast_patcher module: replace the body of
runAutoUpdate with a return of the no-update literal; the other rule sets
ship empty. -/
def defaultDroidPatchConfig : AstPatchConfig :=
  AstPatchConfig.mk [] [] [] [("runAutoUpdate", "no-update")]

mutual

/-- Number of require(m) call subexpressions of an expression. -/
def countRequireExpr (m : String) : Expr → Nat
  | .ident _ => 0
  | .strLit _ => 0
  | .numLit _ => 0
  | .call callee args =>
    (match callee, args with
     | .ident "require", [.strLit s] => if s = m then 1 else 0
     | _, _ => 0) + countRequireExpr m callee + countRequireExprList m args
  | .member objE _ => countRequireExpr m objE
  | .awaitE a => countRequireExpr m a
  | .assign l r => countRequireExpr m l + countRequireExpr m r
  | .binop _ l r => countRequireExpr m l + countRequireExpr m r
  | .unop _ a => countRequireExpr m a
  | .fnExpr _ body => countRequireStmts m body
  | .arrowFnExpr _ body _ => countRequireStmts m body
  | .objLit props => countRequireObjMembers m props

def countRequireExprList (m : String) : List Expr → Nat
  | [] => 0
  | e :: rest => countRequireExpr m e + countRequireExprList m rest

def countRequireObjMembers (m : String) : List ObjMember → Nat
  | [] => 0
  | .method _ _ body :: rest => countRequireStmts m body + countRequireObjMembers m rest
  | .prop _ v :: rest => countRequireExpr m v + countRequireObjMembers m rest

def countRequireClassMembers (m : String) : List ClassMember → Nat
  | [] => 0
  | .method _ _ body :: rest => countRequireStmts m body + countRequireClassMembers m rest

def countRequireDecls (m : String) : List Declarator → Nat
  | [] => 0
  | .mk _ none :: rest => countRequireDecls m rest
  | .mk _ (some e) :: rest => countRequireExpr m e + countRequireDecls m rest

/-- Number of require(m) call subexpressions of a statement. -/
def countRequireStmt (m : String) : Stmt → Nat
  | .exprStmt e => countRequireExpr m e
  | .varDecl _ decls => countRequireDecls m decls
  | .funcDecl _ _ body => countRequireStmts m body
  | .classDecl _ members => countRequireClassMembers m members
  | .returnStmt none => 0
  | .returnStmt (some e) => countRequireExpr m e
  | .ifStmt test thenB elseB =>
    countRequireExpr m test + countRequireStmts m thenB + countRequireStmts m elseB
  | .importDecl _ _ => 0
  | .emptyStmt => 0

def countRequireStmts (m : String) : List Stmt → Nat
  | [] => 0
  | s :: rest => countRequireStmt m s + countRequireStmts m rest

end

theorem filter_of_all {α : Type} (p : α → Bool) :
    ∀ l : List α, l.all p = true → l.filter p = l := by
  intro l h
  induction l with
  | nil => rfl
  | cons a t ih =>
    simp only [List.all_cons, Bool.and_eq_true] at h
    simp [List.filter_cons, h.1, ih h.2]

/-- Claim C2: a mixed default-plus-named import is rewritten to a single
var declaration that calls require once, binding the generated temporary to
the require result, the default local name to the temporary, and an object
pattern of the named bindings from the same temporary. -/
theorem import_mixed_single_require (d : String) (ns : List ImportSpec)
    (source tempName : String) (hne : ns ≠ [])
    (hnamed : ns.all ImportSpec.isNamed = true) :
    transformImportDecl (.defaultS d :: ns) source tempName
      = some (.varDecl "var"
          [Declarator.mk (.id tempName) (some (requireCall source)),
           Declarator.mk (.id d) (some (.ident tempName)),
           Declarator.mk (.objPat (ns.map importProp)) (some (.ident tempName))]) ∧
      countRequireStmt source (.varDecl "var"
          [Declarator.mk (.id tempName) (some (requireCall source)),
           Declarator.mk (.id d) (some (.ident tempName)),
           Declarator.mk (.objPat (ns.map importProp)) (some (.ident tempName))]) = 1 := by
  constructor
  · cases ns with
    | nil => exact absurd rfl hne
    | cons n ns2 =>
      have hall : (ImportSpec.defaultS d :: n :: ns2).all ImportSpec.isNamed = false := by
        simp [List.all_cons, ImportSpec.isNamed]
      have hfind : (ImportSpec.defaultS d :: n :: ns2).find? ImportSpec.isDefault
          = some (ImportSpec.defaultS d) := by
        simp [List.find?, ImportSpec.isDefault]
      have hfilter : (ImportSpec.defaultS d :: n :: ns2).filter ImportSpec.isNamed
          = n :: ns2 := by
        rw [List.filter_cons]
        simp only [ImportSpec.isDefault, ImportSpec.isNamed]
        exact filter_of_all ImportSpec.isNamed (n :: ns2) hnamed
      have hnemp : (n :: ns2).isEmpty = false := rfl
      simp [transformImportDecl, hall, hfind, hfilter, hnemp, ImportSpec.localOf]
  · simp [countRequireStmt, countRequireDecls, countRequireExpr, countRequireExprList,
      requireCall]

/-- Witness for C2: the import of Def together with the named binding x
from module m. -/
theorem import_mixed_single_require_witness :
    ([ImportSpec.named "x" "x"] ≠ ([] : List ImportSpec)) ∧
      [ImportSpec.named "x" "x"].all ImportSpec.isNamed = true ∧
      transformImportDecl [.defaultS "Def", .named "x" "x"] "m" "_temp"
        = some (.varDecl "var"
            [Declarator.mk (.id "_temp") (some (requireCall "m")),
             Declarator.mk (.id "Def") (some (.ident "_temp")),
             Declarator.mk (.objPat ([ImportSpec.named "x" "x"].map importProp))
               (some (.ident "_temp"))]) ∧
      countRequireStmt "m" (.varDecl "var"
            [Declarator.mk (.id "_temp") (some (requireCall "m")),
             Declarator.mk (.id "Def") (some (.ident "_temp")),
             Declarator.mk (.objPat ([ImportSpec.named "x" "x"].map importProp))
               (some (.ident "_temp"))]) = 1 := by
  have h := import_mixed_single_require "Def" [ImportSpec.named "x" "x"] "m" "_temp"
    (by simp) rfl
  exact ⟨by simp, rfl, h.1, h.2⟩

theorem reduceOption_map_ite {α : Type} (p : α → Bool) (l : List α) :
    (l.map (fun n => if p n then none else some n)).reduceOption
      = l.filter (fun n => !p n) := by
  induction l with
  | nil => rfl
  | cons a t ih =>
    by_cases h : p a = true
    · simp [h, ih]
    · simp only [Bool.not_eq_true] at h
      simp [h, ih]

/-- Claim C3: when the program body holds top-level await expression
statements, the relocation step removes exactly those statements from
their positions and appends one self-invoking async arrow function holding
them in their original relative order, while all other statements keep
their relative order; a function declaration whose body merely contains an
await is never treated as a top-level await, and patchAst runs this step on
the traversed program. -/
theorem top_level_await_relocation (body : List Stmt)
    (h : body.filter isTopLevelAwaitStmt ≠ []) :
    relocateTopLevelAwait body
      = body.filter (fun s => !isTopLevelAwaitStmt s)
        ++ [.exprStmt (.call (.arrowFnExpr [] (body.filter isTopLevelAwaitStmt) true) [])] ∧
      (∀ name ps inner, isTopLevelAwaitStmt (.funcDecl name ps inner) = false) ∧
      (∀ cfg program, patchAst cfg program
        = relocateTopLevelAwait (patchStmts cfg (authCheckStmt :: program))) := by
  refine ⟨?_, fun name ps inner => rfl, fun cfg program => rfl⟩
  have hemp : (body.filter isTopLevelAwaitStmt).isEmpty = false := by
    cases hF : body.filter isTopLevelAwaitStmt with
    | nil => exact absurd hF h
    | cons a t => rfl
  simp only [relocateTopLevelAwait, asyncIIFE, hemp, Bool.not_false, if_true]
  rw [reduceOption_map_ite]

/-- Witness for C3: two top-level awaits interleaved with an assignment and
a variable declaration. -/
theorem top_level_await_relocation_witness :
    ([Stmt.exprStmt (.awaitE (.call (.ident "g") [])),
      Stmt.exprStmt (.assign (.ident "x") (.numLit 1)),
      Stmt.exprStmt (.awaitE (.ident "p")),
      Stmt.varDecl "var" [Declarator.mk (.id "y") (some (.numLit 2))]].filter
        isTopLevelAwaitStmt ≠ []) ∧
      relocateTopLevelAwait
        [Stmt.exprStmt (.awaitE (.call (.ident "g") [])),
         Stmt.exprStmt (.assign (.ident "x") (.numLit 1)),
         Stmt.exprStmt (.awaitE (.ident "p")),
         Stmt.varDecl "var" [Declarator.mk (.id "y") (some (.numLit 2))]]
        = [Stmt.exprStmt (.assign (.ident "x") (.numLit 1)),
           Stmt.varDecl "var" [Declarator.mk (.id "y") (some (.numLit 2))],
           Stmt.exprStmt (.call (.arrowFnExpr []
             [Stmt.exprStmt (.awaitE (.call (.ident "g") [])),
              Stmt.exprStmt (.awaitE (.ident "p"))] true) [])] := by
  have hfil : [Stmt.exprStmt (.awaitE (.call (.ident "g") [])),
      Stmt.exprStmt (.assign (.ident "x") (.numLit 1)),
      Stmt.exprStmt (.awaitE (.ident "p")),
      Stmt.varDecl "var" [Declarator.mk (.id "y") (some (.numLit 2))]].filter
        isTopLevelAwaitStmt
      = [Stmt.exprStmt (.awaitE (.call (.ident "g") [])),
         Stmt.exprStmt (.awaitE (.ident "p"))] := rfl
  have hne : [Stmt.exprStmt (.awaitE (.call (.ident "g") [])),
      Stmt.exprStmt (.assign (.ident "x") (.numLit 1)),
      Stmt.exprStmt (.awaitE (.ident "p")),
      Stmt.varDecl "var" [Declarator.mk (.id "y") (some (.numLit 2))]].filter
        isTopLevelAwaitStmt ≠ [] := by
    rw [hfil]
    simp
  have h := top_level_await_relocation _ hne
  refine ⟨hne, ?_⟩
  rw [h.1]
  rfl

/-- The configuration of the C4 scenario: replaceFunctionBody maps foo to
the string literal x; all other rule sets are empty. -/
def replaceFooConfig : AstPatchConfig :=
  AstPatchConfig.mk [] [] [] [("foo", "x")]

/-- Claim C4: under replaceFooConfig, every function declaration named foo,
every class method named foo and every object method named foo has its
whole body replaced by the single statement returning x, regardless of the
parameter list and of the original body. -/
theorem replace_function_body_applies (ps : List String) (body : List Stmt)
    (cname : String) :
    patchStmt replaceFooConfig (.funcDecl "foo" ps body)
      = some (.funcDecl "foo" ps [.returnStmt (some (.strLit "x"))]) ∧
      patchStmt replaceFooConfig (.classDecl cname [.method "foo" ps body])
        = some (.classDecl cname [.method "foo" ps [.returnStmt (some (.strLit "x"))]]) ∧
      patchExpr replaceFooConfig (.objLit [.method "foo" ps body])
        = some (.objLit [.method "foo" ps [.returnStmt (some (.strLit "x"))]]) := by
  have hrep : replaceLookup replaceFooConfig "foo" = some "x" := rfl
  have hren : ∀ n, renameIdent replaceFooConfig n = n := fun n => rfl
  have hmap : ps.map (renameIdent replaceFooConfig) = ps := by
    have he : renameIdent replaceFooConfig = fun n => n := funext hren
    rw [he]
    exact List.map_id' ps
  have hnomem : "foo" ∉ replaceFooConfig.removeIdentifiers := by
    simp [replaceFooConfig]
  refine ⟨?_, ?_, ?_⟩
  · simp [patchStmt, hrep, hren, hmap, hnomem]
  · simp [patchStmt, patchClassMembers, patchClassMember, hrep, hren, hmap]
  · simp [patchExpr, patchObjMembers, patchObjMember, hrep, hmap]

/-- Witness for C4: a concrete two-statement body with one parameter is
replaced in all three shapes. -/
theorem replace_function_body_applies_witness :
    patchStmt replaceFooConfig
      (.funcDecl "foo" ["a"]
        [Stmt.exprStmt (.call (.ident "g") []), Stmt.returnStmt (some (.numLit 7))])
      = some (.funcDecl "foo" ["a"] [.returnStmt (some (.strLit "x"))]) ∧
      patchStmt replaceFooConfig (.classDecl "C"
          [.method "foo" ["a"]
            [Stmt.exprStmt (.call (.ident "g") []), Stmt.returnStmt (some (.numLit 7))]])
        = some (.classDecl "C" [.method "foo" ["a"] [.returnStmt (some (.strLit "x"))]]) ∧
      patchExpr replaceFooConfig (.objLit
          [.method "foo" ["a"]
            [Stmt.exprStmt (.call (.ident "g") []), Stmt.returnStmt (some (.numLit 7))]])
        = some (.objLit [.method "foo" ["a"] [.returnStmt (some (.strLit "x"))]]) := by
  have h := replace_function_body_applies ["a"]
    [Stmt.exprStmt (.call (.ident "g") []), Stmt.returnStmt (some (.numLit 7))] "C"
  exact ⟨h.1, h.2.1, h.2.2⟩

/-- Claim C10: a name configured in removeFunctionCalls removes both a
standalone bare call statement of that name and a standalone
member-expression call statement whose property is that name, whatever the
receiver object and arguments. -/
theorem remove_calls_matches_bare_and_member (cfg : AstPatchConfig) (n : String)
    (receiver : Expr) (args1 args2 : List Expr)
    (h : cfg.removeFunctionCalls.contains n = true) :
    patchStmt cfg (.exprStmt (.call (.ident n) args1)) = none ∧
      patchStmt cfg (.exprStmt (.call (.member receiver n) args2)) = none := by
  have hmem : n ∈ cfg.removeFunctionCalls := by
    simpa using h
  constructor
  · simp [patchStmt, patchExpr, calleeNameOf, hmem]
  · simp [patchStmt, patchExpr, calleeNameOf, hmem]

/-- Witness for C10: removing track deletes both the statement calling
track directly and the statement calling obj.track. -/
theorem remove_calls_matches_bare_and_member_witness :
    (AstPatchConfig.mk [] [] ["track"] []).removeFunctionCalls.contains "track" = true ∧
      patchStmt (AstPatchConfig.mk [] [] ["track"] [])
        (.exprStmt (.call (.ident "track") [])) = none ∧
      patchStmt (AstPatchConfig.mk [] [] ["track"] [])
        (.exprStmt (.call (.member (.ident "obj") "track") [.numLit 1])) = none := by
  have h := remove_calls_matches_bare_and_member (AstPatchConfig.mk [] [] ["track"] [])
    "track" (.ident "obj") [] [.numLit 1] (by decide)
  exact ⟨by decide, h.1, h.2⟩

/-- The configuration of the C9 scenario: replaceFunctionBody maps foo to
the empty string; all other rule sets are empty. -/
def emptyFooConfig : AstPatchConfig :=
  AstPatchConfig.mk [] [] [] [("foo", "")]

theorem emptyFooConfig_replaceLookup (n : String) :
    replaceLookup emptyFooConfig n = none := by
  by_cases h : n = "foo"
  · rw [h]
    rfl
  · have hb : (n == "foo") = false := by
      rw [beq_eq_false_iff_ne]
      exact h
    simp [replaceLookup, emptyFooConfig, List.lookup, hb]

theorem emptyFooConfig_rename (ps : List String) :
    ps.map (renameIdent emptyFooConfig) = ps := by
  have he : renameIdent emptyFooConfig = fun n => n := funext (fun n => rfl)
  rw [he]
  exact List.map_id' ps

theorem objPatProp_eta_map (props : List ObjPatProp) :
    props.map (fun p => ObjPatProp.mk p.key (renameIdent emptyFooConfig p.localName)
      p.shorthand) = props := by
  induction props with
  | nil => rfl
  | cons p rest ih =>
    cases p with
    | mk k l s =>
      have hren : renameIdent emptyFooConfig l = l := rfl
      simp only [List.map_cons, hren, ih]

mutual

/-- Expressions containing no import declaration in nested function bodies. -/
def importFreeExpr : Expr → Bool
  | .ident _ => true
  | .strLit _ => true
  | .numLit _ => true
  | .call callee args => importFreeExpr callee && importFreeExprList args
  | .member objE _ => importFreeExpr objE
  | .awaitE a => importFreeExpr a
  | .assign l r => importFreeExpr l && importFreeExpr r
  | .binop _ l r => importFreeExpr l && importFreeExpr r
  | .unop _ a => importFreeExpr a
  | .fnExpr _ body => importFreeStmts body
  | .arrowFnExpr _ body _ => importFreeStmts body
  | .objLit props => importFreeObjMembers props

def importFreeExprList : List Expr → Bool
  | [] => true
  | e :: rest => importFreeExpr e && importFreeExprList rest

def importFreeObjMembers : List ObjMember → Bool
  | [] => true
  | .method _ _ body :: rest => importFreeStmts body && importFreeObjMembers rest
  | .prop _ v :: rest => importFreeExpr v && importFreeObjMembers rest

def importFreeClassMembers : List ClassMember → Bool
  | [] => true
  | .method _ _ body :: rest => importFreeStmts body && importFreeClassMembers rest

def importFreeDecls : List Declarator → Bool
  | [] => true
  | .mk _ none :: rest => importFreeDecls rest
  | .mk _ (some e) :: rest => importFreeExpr e && importFreeDecls rest

/-- Statements containing no import declaration anywhere. -/
def importFreeStmt : Stmt → Bool
  | .exprStmt e => importFreeExpr e
  | .varDecl _ decls => importFreeDecls decls
  | .funcDecl _ _ body => importFreeStmts body
  | .classDecl _ members => importFreeClassMembers members
  | .returnStmt none => true
  | .returnStmt (some e) => importFreeExpr e
  | .ifStmt test thenB elseB =>
    importFreeExpr test && (importFreeStmts thenB && importFreeStmts elseB)
  | .importDecl _ _ => false
  | .emptyStmt => true

def importFreeStmts : List Stmt → Bool
  | [] => true
  | s :: rest => importFreeStmt s && importFreeStmts rest

end

mutual

theorem patchExpr_inert (e : Expr) (h : importFreeExpr e = true) :
    patchExpr emptyFooConfig e = some e := by
  cases e with
  | ident n => rfl
  | strLit v => rfl
  | numLit v => rfl
  | call callee args =>
    simp only [importFreeExpr, Bool.and_eq_true] at h
    have hcal := patchExpr_inert callee h.1
    have hargs := patchExprList_inert args h.2
    cases hc : calleeNameOf callee with
    | none => simp [patchExpr, hc, keepOr, hcal, hargs]
    | some n =>
      have hnm : n ∉ emptyFooConfig.removeFunctionCalls := List.not_mem_nil n
      simp [patchExpr, hc, hnm, keepOr, hcal, hargs]
  | member objE p =>
    simp only [importFreeExpr] at h
    simp [patchExpr, keepOr, patchExpr_inert objE h]
  | awaitE a =>
    simp only [importFreeExpr] at h
    simp [patchExpr, keepOr, patchExpr_inert a h]
  | assign l r =>
    simp only [importFreeExpr, Bool.and_eq_true] at h
    simp [patchExpr, keepOr, patchExpr_inert l h.1, patchExpr_inert r h.2]
  | binop op l r =>
    simp only [importFreeExpr, Bool.and_eq_true] at h
    simp [patchExpr, keepOr, patchExpr_inert l h.1, patchExpr_inert r h.2]
  | unop op a =>
    simp only [importFreeExpr] at h
    simp [patchExpr, keepOr, patchExpr_inert a h]
  | fnExpr ps body =>
    simp only [importFreeExpr] at h
    simp [patchExpr, emptyFooConfig_rename, patchStmts_inert body h]
  | arrowFnExpr ps body isAsync =>
    simp only [importFreeExpr] at h
    simp [patchExpr, emptyFooConfig_rename, patchStmts_inert body h]
  | objLit props =>
    simp only [importFreeExpr] at h
    simp [patchExpr, patchObjMembers_inert props h]

theorem patchExprList_inert (es : List Expr) (h : importFreeExprList es = true) :
    patchExprList emptyFooConfig es = es := by
  cases es with
  | nil => rfl
  | cons e rest =>
    simp only [importFreeExprList, Bool.and_eq_true] at h
    simp [patchExprList, patchExpr_inert e h.1, patchExprList_inert rest h.2]

theorem patchObjMember_inert (m : ObjMember)
    (h : importFreeObjMembers [m] = true) :
    patchObjMember emptyFooConfig m = m := by
  cases m with
  | method key ps body =>
    simp only [importFreeObjMembers, importFreeStmts, Bool.and_eq_true] at h
    simp [patchObjMember, emptyFooConfig_replaceLookup, emptyFooConfig_rename,
      patchStmts_inert body h.1]
  | prop key v =>
    simp only [importFreeObjMembers, Bool.and_eq_true] at h
    simp [patchObjMember, keepOr, patchExpr_inert v h.1]

theorem patchObjMembers_inert (ms : List ObjMember)
    (h : importFreeObjMembers ms = true) :
    patchObjMembers emptyFooConfig ms = ms := by
  cases ms with
  | nil => rfl
  | cons m rest =>
    cases m with
    | method key ps body =>
      simp only [importFreeObjMembers, Bool.and_eq_true] at h
      have hm := patchObjMember_inert (.method key ps body)
        (by simp [importFreeObjMembers, h.1])
      simp [patchObjMembers, hm, patchObjMembers_inert rest h.2]
    | prop key v =>
      simp only [importFreeObjMembers, Bool.and_eq_true] at h
      have hm := patchObjMember_inert (.prop key v)
        (by simp [importFreeObjMembers, h.1])
      simp [patchObjMembers, hm, patchObjMembers_inert rest h.2]

theorem patchClassMember_inert (m : ClassMember)
    (h : importFreeClassMembers [m] = true) :
    patchClassMember emptyFooConfig m = m := by
  cases m with
  | method key ps body =>
    simp only [importFreeClassMembers, importFreeStmts, Bool.and_eq_true] at h
    simp [patchClassMember, emptyFooConfig_replaceLookup, emptyFooConfig_rename,
      patchStmts_inert body h.1]

theorem patchClassMembers_inert (ms : List ClassMember)
    (h : importFreeClassMembers ms = true) :
    patchClassMembers emptyFooConfig ms = ms := by
  cases ms with
  | nil => rfl
  | cons m rest =>
    cases m with
    | method key ps body =>
      simp only [importFreeClassMembers, Bool.and_eq_true] at h
      have hm := patchClassMember_inert (.method key ps body)
        (by simp [importFreeClassMembers, h.1])
      simp [patchClassMembers, hm, patchClassMembers_inert rest h.2]

theorem patchDeclInit_inert (name : String) (init : Option Expr)
    (h : importFreeDecls [Declarator.mk (.id name) init] = true) :
    patchDeclInit emptyFooConfig name init = init := by
  cases init with
  | none => rfl
  | some e =>
    simp only [importFreeDecls, Bool.and_eq_true] at h
    have he := patchExpr_inert e h.1
    simp [patchDeclInit, emptyFooConfig_replaceLookup, he]

theorem patchDeclarator_inert (d : Declarator)
    (h : importFreeDecls [d] = true) :
    patchDeclarator emptyFooConfig d = d := by
  cases d with
  | mk pat init =>
    cases pat with
    | id name =>
      have hi := patchDeclInit_inert name init h
      have hren : renameIdent emptyFooConfig name = name := rfl
      simp [patchDeclarator, hren, hi]
    | objPat props =>
      cases init with
      | none => simp [patchDeclarator, objPatProp_eta_map]
      | some e =>
        simp only [importFreeDecls, Bool.and_eq_true] at h
        simp [patchDeclarator, objPatProp_eta_map, patchExpr_inert e h.1]

theorem patchDecls_inert (keptCount : Nat) (decls : List Declarator)
    (h : importFreeDecls decls = true) :
    patchDecls emptyFooConfig keptCount decls = some decls := by
  cases decls with
  | nil => rfl
  | cons d rest =>
    have hsplit : importFreeDecls [d] = true ∧ importFreeDecls rest = true := by
      cases d with
      | mk pat init =>
        cases init with
        | none => exact ⟨rfl, h⟩
        | some e =>
          simp only [importFreeDecls, Bool.and_eq_true] at h
          exact ⟨by simp [importFreeDecls, h.1], h.2⟩
    have hd := patchDeclarator_inert d hsplit.1
    have hrest := patchDecls_inert (keptCount + 1) rest hsplit.2
    cases hn : declaredName d with
    | none => simp [patchDecls, hn, hrest, hd]
    | some name =>
      have hnm : name ∉ emptyFooConfig.removeIdentifiers := List.not_mem_nil name
      simp [patchDecls, hn, hnm, hrest, hd]

theorem patchStmt_inert (s : Stmt) (h : importFreeStmt s = true) :
    patchStmt emptyFooConfig s = some s := by
  cases s with
  | exprStmt e =>
    simp only [importFreeStmt] at h
    simp [patchStmt, patchExpr_inert e h]
  | varDecl kind decls =>
    simp only [importFreeStmt] at h
    simp [patchStmt, patchDecls_inert 0 decls h]
  | funcDecl name ps body =>
    simp only [importFreeStmt] at h
    have hnm : name ∉ emptyFooConfig.removeIdentifiers := List.not_mem_nil name
    have hren : renameIdent emptyFooConfig name = name := rfl
    simp [patchStmt, hnm, emptyFooConfig_replaceLookup, hren,
      emptyFooConfig_rename, patchStmts_inert body h]
  | classDecl name members =>
    simp only [importFreeStmt] at h
    have hren : renameIdent emptyFooConfig name = name := rfl
    simp [patchStmt, hren, patchClassMembers_inert members h]
  | returnStmt arg =>
    cases arg with
    | none => rfl
    | some e =>
      simp only [importFreeStmt] at h
      simp [patchStmt, patchExpr_inert e h]
  | ifStmt test thenB elseB =>
    simp only [importFreeStmt, Bool.and_eq_true] at h
    simp [patchStmt, keepOr, patchExpr_inert test h.1,
      patchStmts_inert thenB h.2.1, patchStmts_inert elseB h.2.2]
  | importDecl specs source => simp [importFreeStmt] at h
  | emptyStmt => rfl

theorem patchStmts_inert (ss : List Stmt) (h : importFreeStmts ss = true) :
    patchStmts emptyFooConfig ss = ss := by
  cases ss with
  | nil => rfl
  | cons s rest =>
    simp only [importFreeStmts, Bool.and_eq_true] at h
    simp [patchStmts, patchStmt_inert s h.1, patchStmts_inert rest h.2]

end

/-- Claim C9: a function name whose configured replacement value is the
empty string is silently a no-op, because every replacement site first
tests the configured value for truthiness: a declared function foo, a
variable-bound function or arrow expression foo, an object method foo and a
class method foo all keep their original bodies (for import-free bodies the
whole node is returned unchanged). -/
theorem replace_function_body_empty_string_noop (ps : List String)
    (body : List Stmt) (isAsync : Bool) (h : importFreeStmts body = true) :
    patchStmt emptyFooConfig (.funcDecl "foo" ps body)
      = some (.funcDecl "foo" ps body) ∧
      patchClassMember emptyFooConfig (.method "foo" ps body) = .method "foo" ps body ∧
      patchObjMember emptyFooConfig (.method "foo" ps body) = .method "foo" ps body ∧
      patchStmt emptyFooConfig (.varDecl "const"
          [Declarator.mk (.id "foo") (some (.fnExpr ps body))])
        = some (.varDecl "const" [Declarator.mk (.id "foo") (some (.fnExpr ps body))]) ∧
      patchStmt emptyFooConfig (.varDecl "const"
          [Declarator.mk (.id "foo") (some (.arrowFnExpr ps body isAsync))])
        = some (.varDecl "const"
            [Declarator.mk (.id "foo") (some (.arrowFnExpr ps body isAsync))]) := by
  refine ⟨?_, ?_, ?_, ?_, ?_⟩
  · exact patchStmt_inert (.funcDecl "foo" ps body) (by simpa [importFreeStmt] using h)
  · exact patchClassMember_inert (.method "foo" ps body)
      (by simp [importFreeClassMembers, h])
  · exact patchObjMember_inert (.method "foo" ps body)
      (by simp [importFreeObjMembers, h])
  · exact patchStmt_inert (.varDecl "const"
      [Declarator.mk (.id "foo") (some (.fnExpr ps body))])
      (by simp [importFreeStmt, importFreeDecls, importFreeExpr, h])
  · exact patchStmt_inert (.varDecl "const"
      [Declarator.mk (.id "foo") (some (.arrowFnExpr ps body isAsync))])
      (by simp [importFreeStmt, importFreeDecls, importFreeExpr, h])

/-- Witness for C9: a one-parameter body returning the literal 1 is kept
intact in all five shapes when foo maps to the empty string. -/
theorem replace_function_body_empty_string_noop_witness :
    importFreeStmts [Stmt.returnStmt (some (.numLit 1))] = true ∧
      patchStmt emptyFooConfig
        (.funcDecl "foo" ["a"] [Stmt.returnStmt (some (.numLit 1))])
        = some (.funcDecl "foo" ["a"] [Stmt.returnStmt (some (.numLit 1))]) ∧
      patchClassMember emptyFooConfig
        (.method "foo" ["a"] [Stmt.returnStmt (some (.numLit 1))])
        = .method "foo" ["a"] [Stmt.returnStmt (some (.numLit 1))] ∧
      patchObjMember emptyFooConfig
        (.method "foo" ["a"] [Stmt.returnStmt (some (.numLit 1))])
        = .method "foo" ["a"] [Stmt.returnStmt (some (.numLit 1))] ∧
      patchStmt emptyFooConfig (.varDecl "const"
          [Declarator.mk (.id "foo")
            (some (.fnExpr ["a"] [Stmt.returnStmt (some (.numLit 1))]))])
        = some (.varDecl "const"
            [Declarator.mk (.id "foo")
              (some (.fnExpr ["a"] [Stmt.returnStmt (some (.numLit 1))]))]) ∧
      patchStmt emptyFooConfig (.varDecl "const"
          [Declarator.mk (.id "foo")
            (some (.arrowFnExpr ["a"] [Stmt.returnStmt (some (.numLit 1))] true))])
        = some (.varDecl "const"
            [Declarator.mk (.id "foo")
              (some (.arrowFnExpr ["a"] [Stmt.returnStmt (some (.numLit 1))] true))]) := by
  have h := replace_function_body_empty_string_noop ["a"]
    [Stmt.returnStmt (some (.numLit 1))] true rfl
  exact ⟨rfl, h.1, h.2.1, h.2.2.1, h.2.2.2.1, h.2.2.2.2⟩

end DroidPatcher
